import Mathlib

/-
Verification of petl validation (src/petl/transform/validation.py).

The file shallowly embeds the module: `iterproblems` is translated
line by line from the Python source; external collaborators from
petl.util.base and petl.compat (asindices, Record, text_type), which
are not part of this module, are modelled from their documented
contracts.  Python exceptions are represented by their class names
(strings); a Python generator that yields some records and then
raises is represented by the pair of the records yielded so far and
an optional terminating exception name.
-/

set_option maxHeartbeats 1000000

namespace Petl

/-- Python values appearing in table cells, headers, rows and
constraint targets.  A record value models petl Record, a tuple
subclass carrying the field list of the pass. -/
inductive Value where
  | int : Int → Value
  | str : String → Value
  | bool : Bool → Value
  | none : Value
  | tuple : List Value → Value
  | record : List Value → List String → Value

/-- Python truthiness of a value, as used by the assert statement on
the result of the assertion callable. -/
def Value.truthy : Value → Bool
  | .int n => n != 0
  | .str s => s != ""
  | .bool b => b
  | .none => false
  | .tuple vs => !vs.isEmpty
  | .record vs _ => !vs.isEmpty

/-- Modelled from the spec: the external string-normalization
collaborator (petl.compat text_type, the Python str builtin), used to
coerce header cells to a canonical string form.  Headers in every
claim hold plain strings or ints; the rendering chosen for composite
values is a placeholder that no theorem depends on. -/
def text_type : Value → String
  | .int n => toString n
  | .str s => s
  | .bool b => if b then "True" else "False"
  | .none => "None"
  | .tuple _ => "tuple"
  | .record _ _ => "record"

/-- The field entry of a constraint dict: a single field name or an
ordered collection of field names. -/
inductive FieldSpec where
  | one : String → FieldSpec
  | many : List String → FieldSpec

/-- Python membership test at line 112 of the source,
constraint[field] in flds, where flds is a list of strings: a string
is a member when it equals some element; a collection of names is
never a member, because no string element equals a list. -/
def fieldInFlds : FieldSpec → List String → Bool
  | .one s, flds => flds.contains s
  | .many _, _ => false

/-- Python truthiness of the field entry, as used at line 148 of the
source, value = target if field else None. -/
def fieldTruthy : Option FieldSpec → Bool
  | Option.none => false
  | some (.one s) => s != ""
  | some (.many l) => !l.isEmpty

/-- One problem record yielded by iterproblems: the 5-tuple
(name, row, field, value, error).  The error component is the class
name of the Python exception captured at the failure site. -/
structure Problem where
  name : Option String
  row : Nat
  field : Option FieldSpec
  value : Option Value
  error : String

/-- A constraint description, mirroring the keys of the constraint
dict: every key may be absent.  The test callable either succeeds or
raises an exception, encoded by its class name; the assertion
callable either returns a value, whose truthiness is checked, or
raises; the getter maps the record view to a target value or raises. -/
structure Constraint where
  name : Option String := Option.none
  field : Option FieldSpec := Option.none
  optional : Option Bool := Option.none
  getter : Option (Value → Except String Value) := Option.none
  test : Option (Value → Option String) := Option.none
  assertion : Option (Value → Except String Value) := Option.none

/-- Modelled from the spec: positional indexing on the record view
(petl Record is a tuple subclass, so integer indexing is positional
and raises IndexError when out of range; indexing anything that is
not a sequence raises TypeError). -/
def Value.getItem : Value → Nat → Except String Value
  | .tuple vs, i => if h : i < vs.length then .ok vs[i] else .error "IndexError"
  | .record vs _, i => if h : i < vs.length then .ok vs[i] else .error "IndexError"
  | _, _ => .error "TypeError"

/-- Modelled from the spec: resolution of one field name to its
position in the field list (first occurrence), failing with a lookup
error when the name is absent. -/
def fieldIndex (flds : List String) (s : String) : Except String Nat :=
  match flds.findIdx? (fun x => x == s) with
  | some i => .ok i
  | Option.none => .error "FieldSelectionError"

/-- Modelled from the spec: resolution of an ordered collection of
field names to their positions, in the order the names were given,
failing with a lookup error at the first absent name. -/
def asindicesMany (flds : List String) : List String → Except String (List Nat)
  | [] => .ok []
  | s :: ns => do
    let i ← fieldIndex flds s
    let rest ← asindicesMany flds ns
    .ok (i :: rest)

/-- Modelled from the spec: the external field-selection collaborator
(petl.util.base asindices), which maps one or more field names to
their positions in the field list, in the order the names were given,
failing with a lookup error when a referenced name is absent. -/
def asindices (flds : List String) : FieldSpec → Except String (List Nat)
  | .one s =>
    match fieldIndex flds s with
    | .ok i => .ok [i]
    | .error e => .error e
  | .many ns => asindicesMany flds ns

/-- Positional extraction of several indices in order, failing at the
first out-of-range index. -/
def getItems (r : Value) : List Nat → Except String (List Value)
  | [] => .ok []
  | i :: is => do
    let v ← r.getItem i
    let vs ← getItems r is
    .ok (v :: vs)

/-- Models operator.itemgetter applied to the resolved indices, line
117 of the source: a single index selects the scalar at that
position, several indices select the ordered tuple of the values at
those positions. -/
def itemgetter (idxs : List Nat) : Value → Except String Value :=
  match idxs with
  | [i] => fun r => r.getItem i
  | _ => fun r =>
    match getItems r idxs with
    | .ok vs => .ok (.tuple vs)
    | .error e => .error e

/-- Resolution and getter construction for one constraint with a
field, lines 116 to 118 of the source.  An empty index list makes the
itemgetter construction itself raise TypeError, as in Python. -/
def compileAttach (flds : List String) (c : Constraint) (f : FieldSpec) :
    Except String Constraint := do
  let idxs ← asindices flds f
  if idxs.isEmpty then
    .error "TypeError"
  else
    .ok { c with getter := some (itemgetter idxs) }

/-- Getter setup for one constraint, lines 110 to 118 of the source.
When the constraint supplies a getter nothing happens; when it has no
field nothing happens; when the field is not a member of flds the
optional key is read with direct indexing, raising KeyError when
absent, and a truthy optional skips the constraint (continue), which
leaves it unchanged; otherwise the field is resolved and the getter
attached. -/
def compileConstraint (flds : List String) (c : Constraint) : Except String Constraint :=
  if c.getter.isSome then .ok c
  else
    match c.field with
    | Option.none => .ok c
    | some f =>
      if fieldInFlds f flds then
        compileAttach flds c f
      else
        match c.optional with
        | Option.none => .error "KeyError"
        | some b => if b then .ok c else compileAttach flds c f

/-- The getter-setup loop over the working copies of the constraint
dicts, lines 107 to 118 of the source; the first exception aborts the
pass. -/
def setupGetters (flds : List String) : List Constraint → Except String (List Constraint)
  | [] => .ok []
  | c :: cs => do
    let c2 ← compileConstraint flds c
    let cs2 ← setupGetters flds cs
    .ok (c2 :: cs2)

/-- The default getter, line 141 of the source: the identity on the
record view. -/
def defaultGetter : Value → Except String Value := fun x => .ok x

/-- Problems contributed by the test callable of one constraint on
one row, lines 149 to 154 of the source. -/
def testProblems (c : Constraint) (rowIdx : Nat) (value : Option Value) (target : Value) :
    List Problem :=
  match c.test with
  | Option.none => []
  | some t =>
    match t target with
    | some e => [⟨c.name, rowIdx, c.field, value, e⟩]
    | Option.none => []

/-- Problems contributed by the assertion callable of one constraint
on one row, lines 155 to 160 of the source: a raised exception keeps
its class name, a falsy result makes the assert raise AssertionError. -/
def assertionProblems (c : Constraint) (rowIdx : Nat) (value : Option Value) (target : Value) :
    List Problem :=
  match c.assertion with
  | Option.none => []
  | some a =>
    match a target with
    | .error e => [⟨c.name, rowIdx, c.field, value, e⟩]
    | .ok w => if w.truthy then [] else [⟨c.name, rowIdx, c.field, value, "AssertionError"⟩]

/-- Outcome of the assert on the assertion callable: the class name
of the exception when the assert at line 157 of the source fails,
Option.none when it passes. -/
def assertFails (a : Value → Except String Value) (v : Value) : Option String :=
  match a v with
  | .error e => some e
  | .ok w => if w.truthy then Option.none else some "AssertionError"

/-- Evaluation of one constraint against one row, lines 136 to 160 of
the source: extract the target with the getter (default identity) on
the record view; on failure emit one problem with an absent value and
stop; otherwise report the target as the value exactly when the field
entry is truthy, then run test and assertion. -/
def evalConstraint (flds : List String) (rowIdx : Nat) (row : List Value) (c : Constraint) :
    List Problem :=
  match (c.getter.getD defaultGetter) (Value.record row flds) with
  | .error e => [⟨c.name, rowIdx, c.field, Option.none, e⟩]
  | .ok target =>
    let value := if fieldTruthy c.field then some target else Option.none
    testProblems c rowIdx value target ++ assertionProblems c rowIdx value target

/-- Problems for one data row, lines 125 to 160 of the source: the
row-length check first (len of a tuple never raises, so the only
possible exception is the AssertionError of the length assert), then
every constraint in declaration order. -/
def rowProblems (flds : List String) (cs : List Constraint) (rowIdx : Nat) (row : List Value) :
    List Problem :=
  (if row.length = flds.length then [] else
    [⟨some "__len__", rowIdx, Option.none, some (Value.int (row.length : Int)), "AssertionError"⟩])
  ++ cs.flatMap (evalConstraint flds rowIdx row)

/-- The row loop, lines 122 to 160 of the source, carrying the 1-based
row index directly. -/
def processRows (flds : List String) (cs : List Constraint) : Nat → List (List Value) → List Problem
  | _, [] => []
  | i, r :: rest => rowProblems flds cs i r ++ processRows flds cs (i + 1) rest

/-- The header comparison, lines 95 to 104 of the source: with no
expected header the actual header, string normalized, becomes the
field list and no check runs; with an expected header both are string
normalized and compared for exact equality, a mismatch yields the one
header problem, and the expected header always becomes the field
list.  Returns the effective field list and the header problems. -/
def headerCheck (expected : Option (List Value)) (actual : List Value) :
    List String × List Problem :=
  match expected with
  | Option.none => (actual.map text_type, [])
  | some exp =>
    let eflds := exp.map text_type
    let aflds := actual.map text_type
    (eflds,
      if eflds = aflds then [] else
        [⟨some "__header__", 0, Option.none, Option.none, "AssertionError"⟩])

/-- A table: the first row is the header, the rest are the data rows. -/
structure Table where
  header : List Value
  rows : List (List Value)

/-- The fixed report header yielded first by iterproblems, line 89 of
the source.  It is metadata about the report shape and precedes every
problem record. -/
def reportHeader : List String := ["name", "row", "field", "value", "error"]

/-- The generator iterproblems, lines 87 to 160 of the source, minus
the report-header record: the pair of the problem records yielded and
the exception, if any, that terminates the iteration (an exception
escaping getter setup aborts the pass after the header problems). -/
def iterproblems (t : Table) (cs : List Constraint) (expectedHeader : Option (List Value)) :
    List Problem × Option String :=
  let fp := headerCheck expectedHeader t.header
  match setupGetters fp.1 cs with
  | .error e => (fp.2, some e)
  | .ok cs2 => (fp.2 ++ processRows fp.1 cs2 1 t.rows, Option.none)

/-- The effective field list of a pass: the first component of the
header check. -/
def effectiveFlds (t : Table) (expectedHeader : Option (List Value)) : List String :=
  (headerCheck expectedHeader t.header).1

/-- The error kind produced at the header-check site: the spec names
this category HeaderMismatch; the source realizes it as the class
name of the exception raised by the failed assert at line 101. -/
def HeaderMismatch : String := "AssertionError"

/-- The error kind produced at the row-length-check site: the spec
names this category RowLengthMismatch; the source realizes it as the
class name of the exception raised by the failed assert at line 129. -/
def RowLengthMismatch : String := "AssertionError"

/-- A multi-pass table: pass k of the iteration protocol yields the
table returned for k.  A re-iterable, unchanged table yields the same
rows on every pass. -/
structure MultiPassTable where
  passes : Nat → Table

/-- The lazy problems view, lines 76 to 84 of the source: it stores
the table, constraints and expected header, and every iteration runs
iterproblems afresh on a fresh pass over the table. -/
structure ProblemsView where
  table : MultiPassTable
  constraints : List Constraint
  header : Option (List Value)

/-- Iteration number k of the problems view, line 84 of the source. -/
def ProblemsView.iterate (v : ProblemsView) (k : Nat) : List Problem × Option String :=
  iterproblems (v.table.passes k) v.constraints v.header

/-- A constraint dict with every key absent. -/
def emptyConstraint : Constraint := {}

/-- Heap model of line 108 of the source, constraints = [dict(**c)
for c in constraints]: the heap is the store of constraint dicts,
addresses are indices, and the comprehension allocates a fresh copy
of every caller cell at the end of the heap. -/
def copyConstraints (heap : List Constraint) (addrs : List Nat) :
    List Constraint × List Nat :=
  (heap ++ addrs.map (fun a => heap.getD a emptyConstraint),
   List.range' heap.length addrs.length)

/-- Heap model of the getter-setup loop, lines 109 to 118 of the
source: each compiled constraint is written back to its own cell; the
first exception aborts the loop. -/
def attachGetters (flds : List String) : List Constraint → List Nat → List Constraint × Option String
  | heap, [] => (heap, Option.none)
  | heap, a :: rest =>
    match compileConstraint flds (heap.getD a emptyConstraint) with
    | .error e => (heap, some e)
    | .ok c2 => attachGetters flds (heap.set a c2) rest

/-- Heap model of the whole constraint-preparation step, lines 107 to
118 of the source: copy every caller cell, then attach getters to the
copies only. -/
def setupGettersHeap (flds : List String) (heap : List Constraint) (addrs : List Nat) :
    List Constraint × Option String :=
  let hc := copyConstraints heap addrs
  attachGetters flds hc.1 hc.2

/-- The assertion callable of the end-to-end example: v greater than
zero for an int, raising TypeError on a value that Python cannot
order against an int. -/
def fooPosAssertion : Value → Except String Value
  | .int n => .ok (.bool (decide (0 < n)))
  | _ => .error "TypeError"

/-- The constraint of the end-to-end example: name foo_pos, field
foo, assertion v greater than zero. -/
def fooPosConstraint : Constraint :=
  { name := some "foo_pos", field := some (.one "foo"), assertion := some fooPosAssertion }

/-- The table of the end-to-end example: header (foo, bar) and data
rows (1, a), (-1, b), (2, c, extra). -/
def exampleTable : Table :=
  { header := [.str "foo", .str "bar"],
    rows := [[.int 1, .str "a"], [.int (-1), .str "b"], [.int 2, .str "c", .str "extra"]] }

/-- An assertion callable that returns a falsy value on every input. -/
def alwaysFalseAssertion : Value → Except String Value := fun _ => .ok (.bool false)

/-- A constraint on the absent field x, marked optional, with an
assertion that fails on every value. -/
def optionalMissingConstraint : Constraint :=
  { name := some "c", field := some (.one "x"), optional := some true,
    assertion := some alwaysFalseAssertion }

/-- A two-column table with header (a, b) and the single data row
(1, 2). -/
def smallTable : Table := { header := [.str "a", .str "b"], rows := [[.int 1, .int 2]] }

/-- A test callable that raises ValueError on every input. -/
def raisingTest : Value → Option String := fun _ => some "ValueError"

/-- A constraint with no field whose test raises and whose assertion
returns a falsy value on every row. -/
def fieldlessConstraint : Constraint :=
  { name := some "nf", test := some raisingTest, assertion := some alwaysFalseAssertion }

/-- A constraint with a field and a supplied getter whose test raises
and whose assertion returns a falsy value on every row. -/
def fieldedFailingConstraint : Constraint :=
  { name := some "w4", field := some (.one "a"), getter := some (itemgetter [0]),
    test := some raisingTest, assertion := some alwaysFalseAssertion }

/-- A constraint whose supplied getter selects position 2, out of
range on a row of length 1. -/
def outOfRangeConstraint : Constraint :=
  { name := some "w5", field := some (.one "a"), getter := some (itemgetter [2]) }

/-- A constraint on the ordered pair of fields (b, a), with the
optional key present and false. -/
def pairConstraint : Constraint :=
  { name := some "pair", field := some (.many ["b", "a"]), optional := some false }

/-- A constraint on the single field a, with no optional key. -/
def aFieldConstraint : Constraint :=
  { name := some "one_a", field := some (.one "a") }

/-- A constraint on the absent field z, with the optional key present
and false. -/
def missingRequiredConstraint : Constraint :=
  { name := some "req_z", field := some (.one "z"), optional := some false }

/-- A constraint on the field collection (a, b) with no optional key:
the collection is never a member of the field list, so reading the
optional key raises KeyError during getter setup. -/
def noOptionalConstraint : Constraint :=
  { name := some "n10", field := some (.many ["a", "b"]) }

/-- A problems view over a table that yields the same rows on every
pass. -/
def constView : ProblemsView :=
  { table := ⟨fun _ => smallTable⟩, constraints := [], header := Option.none }

/-- Every problem contributed by the test callable carries the row
index of the row being checked. -/
theorem testProblems_row (c : Constraint) (i : Nat) (v : Option Value) (tg : Value) :
    ∀ p ∈ testProblems c i v tg, p.row = i := by
  intro p hp
  cases ht : c.test with
  | none => simp [testProblems, ht] at hp
  | some t =>
    cases htt : t tg with
    | none => simp [testProblems, ht, htt] at hp
    | some e => simp [testProblems, ht, htt] at hp; rw [hp]

/-- Every problem contributed by the assertion callable carries the
row index of the row being checked. -/
theorem assertionProblems_row (c : Constraint) (i : Nat) (v : Option Value) (tg : Value) :
    ∀ p ∈ assertionProblems c i v tg, p.row = i := by
  intro p hp
  cases ha : c.assertion with
  | none => simp [assertionProblems, ha] at hp
  | some a =>
    cases haa : a tg with
    | error e => simp [assertionProblems, ha, haa] at hp; rw [hp]
    | ok w =>
      by_cases hw : w.truthy
      · simp [assertionProblems, ha, haa, hw] at hp
      · simp [assertionProblems, ha, haa, hw] at hp; rw [hp]

/-- Every problem produced by evaluating one constraint on one row
carries the row index of that row. -/
theorem evalConstraint_row (flds : List String) (i : Nat) (row : List Value) (c : Constraint) :
    ∀ p ∈ evalConstraint flds i row c, p.row = i := by
  intro p hp
  unfold evalConstraint at hp
  cases hg : (c.getter.getD defaultGetter) (Value.record row flds) with
  | error e => rw [hg] at hp; simp at hp; rw [hp]
  | ok target =>
    rw [hg] at hp
    simp only [] at hp
    rcases List.mem_append.1 hp with h | h
    · exact testProblems_row _ _ _ _ p h
    · exact assertionProblems_row _ _ _ _ p h

/-- Every problem produced for one data row carries the index of that
row. -/
theorem rowProblems_row (flds : List String) (cs : List Constraint) (i : Nat)
    (row : List Value) : ∀ p ∈ rowProblems flds cs i row, p.row = i := by
  intro p hp
  unfold rowProblems at hp
  rcases List.mem_append.1 hp with h | h
  · split at h
    · simp at h
    · simp at h; rw [h]
  · rcases List.mem_flatMap.1 h with ⟨c, _, hc⟩
    exact evalConstraint_row _ _ _ _ p hc

/-- Every problem produced by the row loop started at index i carries
a row index at least i. -/
theorem processRows_row_ge (flds : List String) (cs : List Constraint) :
    ∀ (rows : List (List Value)) (i : Nat) (p : Problem),
      p ∈ processRows flds cs i rows → i ≤ p.row := by
  intro rows
  induction rows with
  | nil => intro i p hp; simp [processRows] at hp
  | cons r rest ih =>
    intro i p hp
    unfold processRows at hp
    rcases List.mem_append.1 hp with h | h
    · exact Nat.le_of_eq (rowProblems_row flds cs i r p h).symm
    · exact Nat.le_of_succ_le (ih (i + 1) p h)

/-- A list of problems all carrying the same row index is pairwise
ordered by row index. -/
theorem pairwise_row_eq {l : List Problem} {i : Nat} (h : ∀ p ∈ l, p.row = i) :
    l.Pairwise (fun p q => p.row ≤ q.row) := by
  induction l with
  | nil => exact List.Pairwise.nil
  | cons a l ih =>
    refine List.Pairwise.cons ?_ (ih fun p hp => h p (List.mem_cons_of_mem a hp))
    intro q hq
    rw [h a (List.mem_cons_self a l), h q (List.mem_cons_of_mem a hq)]

/-- The output of the row loop is pairwise ordered by row index. -/
theorem processRows_pairwise (flds : List String) (cs : List Constraint) :
    ∀ (rows : List (List Value)) (i : Nat),
      (processRows flds cs i rows).Pairwise (fun p q => p.row ≤ q.row) := by
  intro rows
  induction rows with
  | nil => intro i; simp [processRows]
  | cons r rest ih =>
    intro i
    unfold processRows
    rw [List.pairwise_append]
    refine ⟨pairwise_row_eq (rowProblems_row flds cs i r), ih (i + 1), ?_⟩
    intro p hp q hq
    rw [rowProblems_row flds cs i r p hp]
    exact Nat.le_of_succ_le (processRows_row_ge flds cs rest (i + 1) q hq)

/-- The only problem the header check can produce is the header
problem tuple. -/
theorem headerCheck_mem (e : Option (List Value)) (a : List Value) :
    ∀ p ∈ (headerCheck e a).2,
      p = ⟨some "__header__", 0, Option.none, Option.none, "AssertionError"⟩ := by
  intro p hp
  unfold headerCheck at hp
  cases e with
  | none => simp at hp
  | some exp =>
    simp only [] at hp
    split at hp
    · simp at hp
    · simpa using hp

/-- The problems of an iteration are pairwise ordered by row index. -/
theorem iterproblems_pairwise (t : Table) (cs : List Constraint)
    (eh : Option (List Value)) :
    (iterproblems t cs eh).1.Pairwise (fun p q => p.row ≤ q.row) := by
  cases hs : setupGetters (headerCheck eh t.header).1 cs with
  | error e =>
    simp only [iterproblems, hs]
    refine pairwise_row_eq (i := 0) fun p hp => ?_
    rw [headerCheck_mem eh t.header p hp]
  | ok cs2 =>
    simp only [iterproblems, hs]
    rw [List.pairwise_append]
    refine ⟨pairwise_row_eq (i := 0) fun p hp => by rw [headerCheck_mem eh t.header p hp],
      processRows_pairwise _ _ _ _, ?_⟩
    intro p hp q hq
    rw [headerCheck_mem eh t.header p hp]
    exact Nat.zero_le _

/-- Filtering a problem list whose members all carry row index i by
row index j keeps everything or nothing. -/
theorem filter_row_all_eq {l : List Problem} {i : Nat} (h : ∀ p ∈ l, p.row = i) (j : Nat) :
    l.filter (fun p => p.row == j) = if j = i then l else [] := by
  induction l with
  | nil => simp
  | cons a l ih =>
    have ha := h a (List.mem_cons_self a l)
    have ih2 := ih fun p hp => h p (List.mem_cons_of_mem a hp)
    by_cases hj : j = i
    · subst hj
      simp [List.filter_cons, ha, ih2]
    · rw [if_neg hj] at ih2
      simp [List.filter_cons, ha, ih2, if_neg hj, Ne.symm hj]

/-- Filtering a problem list by a row index that no member carries
gives the empty list. -/
theorem filter_row_none {l : List Problem} {j : Nat} (h : ∀ p ∈ l, ¬ p.row = j) :
    l.filter (fun p => p.row == j) = [] := by
  rw [List.filter_eq_nil_iff]
  intro p hp
  simpa using h p hp

/-- The problems of the row loop filtered by one row index are
exactly the problems of that row. -/
theorem processRows_filter (flds : List String) (cs : List Constraint) :
    ∀ (rows : List (List Value)) (i j : Nat) (r : List Value), i ≤ j →
      rows[j - i]? = some r →
      (processRows flds cs i rows).filter (fun p => p.row == j) = rowProblems flds cs j r := by
  intro rows
  induction rows with
  | nil => intro i j r _ hr; simp at hr
  | cons r0 rest ih =>
    intro i j r hij hr
    unfold processRows
    rw [List.filter_append]
    by_cases hji : j = i
    · subst hji
      rw [Nat.sub_self] at hr
      simp at hr
      subst hr
      rw [filter_row_all_eq (rowProblems_row flds cs j r0) j, if_pos rfl]
      rw [filter_row_none fun p hp h0 => by
        have := processRows_row_ge flds cs rest (j + 1) p hp
        omega]
      rw [List.append_nil]
    · have hsub : j - i = (j - (i + 1)) + 1 := by omega
      rw [hsub, List.getElem?_cons_succ] at hr
      rw [filter_row_all_eq (rowProblems_row flds cs i r0) j, if_neg hji, List.nil_append]
      exact ih (i + 1) j r (by omega) hr

/-- Getter setup over a concatenated constraint list fails with the
first failure of the second part when the first part succeeds. -/
theorem setupGetters_append_error (flds : List String) :
    ∀ (xs ys : List Constraint) (xs2 : List Constraint) (e : String),
      setupGetters flds xs = .ok xs2 → setupGetters flds ys = .error e →
      setupGetters flds (xs ++ ys) = .error e := by
  intro xs
  induction xs with
  | nil => intro ys xs2 e _ hy; simpa using hy
  | cons x xs ih =>
    intro ys xs2 e hx hy
    rw [List.cons_append]
    unfold setupGetters at hx ⊢
    cases hcx : compileConstraint flds x with
    | error e2 =>
      rw [hcx] at hx
      simp [Bind.bind, Except.bind] at hx
    | ok c2 =>
      rw [hcx] at hx
      simp only [Bind.bind, Except.bind] at hx ⊢
      cases hxs : setupGetters flds xs with
      | error e2 =>
        rw [hxs] at hx
        simp at hx
      | ok xs3 =>
        rw [ih ys xs3 e hxs hy]

/-- Getter setup fails when the compilation of the head constraint
fails. -/
theorem setupGetters_cons_error (flds : List String) (c : Constraint)
    (cs : List Constraint) (e : String) (hc : compileConstraint flds c = .error e) :
    setupGetters flds (c :: cs) = .error e := by
  unfold setupGetters
  rw [hc]
  simp [Bind.bind, Except.bind]

/-- The index list produced by asindices for a collection of names
has one index per name. -/
theorem asindicesMany_length (flds : List String) :
    ∀ (ns : List String) (idxs : List Nat),
      asindicesMany flds ns = .ok idxs → idxs.length = ns.length := by
  intro ns
  induction ns with
  | nil =>
    intro idxs h
    simp only [asindicesMany, Except.ok.injEq] at h
    rw [← h]
    rfl
  | cons s ns ih =>
    intro idxs h
    unfold asindicesMany at h
    cases hf : fieldIndex flds s with
    | error e => rw [hf] at h; simp [Bind.bind, Except.bind] at h
    | ok i =>
      rw [hf] at h
      simp only [Bind.bind, Except.bind] at h
      cases hrest : asindicesMany flds ns with
      | error e => rw [hrest] at h; simp at h
      | ok idxs2 =>
        rw [hrest] at h
        simp only [Except.ok.injEq] at h
        rw [← h]
        simp [ih idxs2 hrest]

/-- Positional indexing on the record view returns the row value at
an in-range position. -/
theorem getItem_record (row : List Value) (flds : List String) (j : Nat)
    (hj : j < row.length) :
    (Value.record row flds).getItem j = .ok (row.getD j Value.none) := by
  simp [Value.getItem, hj, List.getD_eq_getElem row Value.none hj]

/-- Extracting a list of in-range indices from the record view
returns the list of row values at those positions, in order. -/
theorem getItems_record (row : List Value) (flds : List String) :
    ∀ (idxs : List Nat), (∀ j ∈ idxs, j < row.length) →
      getItems (Value.record row flds) idxs =
        .ok (idxs.map fun j => row.getD j Value.none) := by
  intro idxs
  induction idxs with
  | nil => intro _; rfl
  | cons j idxs ih =>
    intro h
    unfold getItems
    rw [getItem_record row flds j (h j (List.mem_cons_self _ _))]
    simp only [Bind.bind, Except.bind]
    rw [ih fun j2 hj2 => h j2 (List.mem_cons_of_mem _ hj2)]
    rfl

/-- A name that the field list does not contain has no index in it. -/
theorem findIdx?_none_of_contains_false (flds : List String) (s : String)
    (h : flds.contains s = false) : flds.findIdx? (fun x => x == s) = Option.none := by
  rw [List.findIdx?_eq_none_iff]
  intro x hx
  simp at h ⊢
  intro hxs
  exact h (hxs ▸ hx)

/-- A name with an index in the field list is contained in it. -/
theorem contains_of_fieldIndex_ok (flds : List String) (s : String) (i : Nat)
    (h : fieldIndex flds s = .ok i) : flds.contains s = true := by
  unfold fieldIndex at h
  cases hf : flds.findIdx? (fun x => x == s) with
  | none => rw [hf] at h; simp at h
  | some j =>
    have h2 : ¬ flds.findIdx? (fun x => x == s) = Option.none := by rw [hf]; simp
    rw [List.findIdx?_eq_none_iff] at h2
    push_neg at h2
    obtain ⟨x, hx, hpx⟩ := h2
    simp at hpx
    simp
    rw [← hpx]
    exact hx

/-- Compilation of a constraint without a getter whose field is a
member of the field list resolves and attaches the getter. -/
theorem compileConstraint_present (flds : List String) (c : Constraint) (f : FieldSpec)
    (hg : c.getter = Option.none) (hf : c.field = some f)
    (hmem : fieldInFlds f flds = true) :
    compileConstraint flds c = compileAttach flds c f := by
  unfold compileConstraint
  rw [hg, hf]
  simp [hmem]

/-- Compilation of a constraint without a getter whose field is not a
member of the field list and whose optional key is absent raises
KeyError. -/
theorem compileConstraint_keyError (flds : List String) (c : Constraint) (f : FieldSpec)
    (hg : c.getter = Option.none) (hf : c.field = some f)
    (hmem : fieldInFlds f flds = false) (hopt : c.optional = Option.none) :
    compileConstraint flds c = .error "KeyError" := by
  unfold compileConstraint
  rw [hg, hf, hopt]
  simp [hmem]

/-- Compilation of a constraint without a getter whose field is not a
member of the field list and whose optional key is false resolves the
field anyway. -/
theorem compileConstraint_required (flds : List String) (c : Constraint) (f : FieldSpec)
    (hg : c.getter = Option.none) (hf : c.field = some f)
    (hmem : fieldInFlds f flds = false) (hopt : c.optional = some false) :
    compileConstraint flds c = compileAttach flds c f := by
  unfold compileConstraint
  rw [hg, hf, hopt]
  simp [hmem]

/-- Attaching a getter for a single name with a resolved index yields
the scalar itemgetter at that index. -/
theorem compileAttach_one (flds : List String) (c : Constraint) (s : String) (i : Nat)
    (hfi : fieldIndex flds s = .ok i) :
    compileAttach flds c (.one s) = .ok { c with getter := some (itemgetter [i]) } := by
  simp only [compileAttach, asindices]
  rw [hfi]
  simp [Bind.bind, Except.bind]

/-- Attaching a getter for a single absent name fails with the lookup
error. -/
theorem compileAttach_one_err (flds : List String) (c : Constraint) (s : String)
    (hfi : fieldIndex flds s = .error "FieldSelectionError") :
    compileAttach flds c (.one s) = .error "FieldSelectionError" := by
  simp only [compileAttach, asindices]
  rw [hfi]
  simp [Bind.bind, Except.bind]

/-- Attaching a getter for a resolved nonempty collection of names
yields the itemgetter at the resolved indices. -/
theorem compileAttach_many (flds : List String) (c : Constraint) (ns : List String)
    (idxs : List Nat) (hidx : asindicesMany flds ns = .ok idxs) (hne : idxs.isEmpty = false) :
    compileAttach flds c (.many ns) = .ok { c with getter := some (itemgetter idxs) } := by
  simp only [compileAttach, asindices]
  rw [hidx]
  simp [Bind.bind, Except.bind, hne]

/-- Getter attachment writes only to the given cells, so every cell
below a bound no written cell goes under is untouched. -/
theorem attachGetters_preserve (flds : List String) :
    ∀ (news : List Nat) (h : List Constraint) (n : Nat),
      (∀ b ∈ news, n ≤ b) → ∀ a, a < n →
        ((attachGetters flds h news).1)[a]? = h[a]? := by
  intro news
  induction news with
  | nil => intro h n _ a _; rfl
  | cons b rest ih =>
    intro h n hb a ha
    unfold attachGetters
    cases hc : compileConstraint flds (h.getD b emptyConstraint) with
    | error e => rfl
    | ok c2 =>
      rw [ih (h.set b c2) n (fun b2 hb2 => hb b2 (List.mem_cons_of_mem _ hb2)) a ha]
      refine List.getElem?_set_ne ?_
      have := hb b (List.mem_cons_self _ _)
      omega

/-- C1: for the table with expected header (foo, bar), the single
constraint foo_pos on field foo asserting v greater than zero, and
data rows (1, a), (-1, b), (2, c, extra), the problems after the
report-header record are exactly the assertion failure for foo_pos at
row 2 carrying the value -1, then the row-length problem at row 3
carrying the actual length 3, in this order; in particular no foo_pos
problem is produced for row 3. -/
theorem claim_C1_end_to_end :
    iterproblems exampleTable [fooPosConstraint] (some [.str "foo", .str "bar"]) =
      ([⟨some "foo_pos", 2, some (.one "foo"), some (Value.int (-1)), "AssertionError"⟩,
        ⟨some "__len__", 3, Option.none, some (Value.int 3), "AssertionError"⟩],
       Option.none) := rfl

/-- C3: evaluation of the code at the failing input of the claim.  A
constraint on the absent field x with optional true is not dropped
from evaluation: it stays in the constraint list without a getter, so
the row loop evaluates it with the default identity getter, its
assertion receives the whole row record, and a problem is emitted,
where the claim and the spec require zero problems from that
constraint. -/
theorem claim_C3_optional_not_dropped :
    iterproblems smallTable [optionalMissingConstraint] Option.none =
      ([⟨some "c", 1, some (.one "x"),
         some (Value.record [Value.int 1, Value.int 2] ["a", "b"]), "AssertionError"⟩],
       Option.none) := rfl

/-- C4 counterexample: a constraint with no field, a raising test and
a failing assertion produces two problems on the row (1), but both
problems carry an absent value even though extraction succeeded and
the extracted value is the whole row record, which is not absent; so
the claim that both problems carry the extracted value is false at
this input. -/
theorem claim_C4_counterexample :
    evalConstraint ["a"] 1 [Value.int 1] fieldlessConstraint =
      [⟨some "nf", 1, Option.none, Option.none, "ValueError"⟩,
       ⟨some "nf", 1, Option.none, Option.none, "AssertionError"⟩]
    ∧ (fieldlessConstraint.getter.getD defaultGetter) (Value.record [Value.int 1] ["a"]) =
        .ok (Value.record [Value.int 1] ["a"])
    ∧ ((Option.none : Option Value) ≠ some (Value.record [Value.int 1] ["a"])) :=
  ⟨rfl, rfl, by simp⟩

/-- C4 amended: for every constraint supplying both test and
assertion, and every row for which extraction succeeds, the test
raises, and the assertion fails, exactly two problem records are
produced for that row and constraint, the test problem first and the
assertion problem second, and both carry the same value: the
extracted target when the field entry of the constraint is truthy,
absent otherwise. -/
theorem claim_C4_test_then_assertion (flds : List String) (i : Nat) (row : List Value)
    (c : Constraint) (tf : Value → Option String) (af : Value → Except String Value)
    (target : Value) (e1 e2 : String)
    (hget : (c.getter.getD defaultGetter) (Value.record row flds) = .ok target)
    (ht : c.test = some tf) (he1 : tf target = some e1)
    (ha : c.assertion = some af) (he2 : assertFails af target = some e2) :
    evalConstraint flds i row c =
      [⟨c.name, i, c.field, if fieldTruthy c.field then some target else Option.none, e1⟩,
       ⟨c.name, i, c.field, if fieldTruthy c.field then some target else Option.none, e2⟩] := by
  simp only [evalConstraint, hget]
  simp only [testProblems, assertionProblems, ht, he1, ha]
  unfold assertFails at he2
  cases haf : af target with
  | error e =>
    rw [haf] at he2
    simp only [Option.some.injEq] at he2
    rw [← he2]
    rfl
  | ok w =>
    rw [haf] at he2
    by_cases hw : w.truthy
    · simp [hw] at he2
    · simp [hw] at he2
      simp [hw, he2]

/-- C4 witness: the amended theorem at a concrete fielded input, both
problems carrying the extracted value 5. -/
theorem claim_C4_witness :
    evalConstraint ["a"] 1 [Value.int 5] fieldedFailingConstraint =
      [⟨some "w4", 1, some (.one "a"), some (Value.int 5), "ValueError"⟩,
       ⟨some "w4", 1, some (.one "a"), some (Value.int 5), "AssertionError"⟩] :=
  claim_C4_test_then_assertion ["a"] 1 [Value.int 5] fieldedFailingConstraint
    raisingTest alwaysFalseAssertion (Value.int 5) "ValueError" "AssertionError"
    rfl rfl rfl rfl rfl

/-- C5: for every constraint and data row on which the effective
getter fails, exactly one problem record is emitted, carrying the
constraint name, the row index, the constraint field entry, an absent
value and the error kind of the failure; the test and assertion
contribute nothing for that row. -/
theorem claim_C5_extraction_failure (flds : List String) (i : Nat) (row : List Value)
    (c : Constraint) (e : String)
    (hg : (c.getter.getD defaultGetter) (Value.record row flds) = .error e) :
    evalConstraint flds i row c = [⟨c.name, i, c.field, Option.none, e⟩] := by
  simp only [evalConstraint, hg]

/-- C5 witness: the theorem at a concrete input whose getter selects
an out-of-range position. -/
theorem claim_C5_witness :
    evalConstraint ["a"] 1 [Value.int 7] outOfRangeConstraint =
      [⟨some "w5", 1, some (.one "a"), Option.none, "IndexError"⟩] :=
  claim_C5_extraction_failure ["a"] 1 [Value.int 7] outOfRangeConstraint "IndexError" rfl

/-- C9: for every problems view over a table that yields the same
rows on each pass, any two iterations of the view yield identical
results. -/
theorem claim_C9_reiteration (v : ProblemsView)
    (h : ∀ j k : Nat, v.table.passes j = v.table.passes k) (j k : Nat) :
    v.iterate j = v.iterate k := by
  unfold ProblemsView.iterate
  rw [h j k]

/-- C9 witness: the theorem at a concrete view over an unchanging
table. -/
theorem claim_C9_witness : constView.iterate 0 = constView.iterate 7 :=
  claim_C9_reiteration constView (fun _ _ => rfl) 0 7

/-- C2: for every table and supplied expected header that differs
from the actual header after string normalization, the effective
field list is always the normalized expected header (this conjunct
holds for every supplied header, matched or not), the first emitted
problem is the header problem with the HeaderMismatch error kind, and
it is the only problem carrying row index 0. -/
theorem claim_C2_header_mismatch (t : Table) (cs : List Constraint) (eh : List Value)
    (hmis : eh.map text_type ≠ t.header.map text_type) :
    (∀ eh2 : List Value, effectiveFlds t (some eh2) = eh2.map text_type)
    ∧ (iterproblems t cs (some eh)).1.head? =
        some ⟨some "__header__", 0, Option.none, Option.none, HeaderMismatch⟩
    ∧ (iterproblems t cs (some eh)).1.countP (fun p => p.row == 0) = 1 := by
  have hhc : (headerCheck (some eh) t.header).2 =
      [⟨some "__header__", 0, Option.none, Option.none, "AssertionError"⟩] := by
    simp only [headerCheck]
    rw [if_neg hmis]
  refine ⟨fun eh2 => rfl, ?_, ?_⟩
  · cases hs : setupGetters (headerCheck (some eh) t.header).1 cs with
    | error e =>
      simp only [iterproblems, hs, hhc]
      rfl
    | ok cs2 =>
      simp only [iterproblems, hs, hhc]
      rfl
  · cases hs : setupGetters (headerCheck (some eh) t.header).1 cs with
    | error e =>
      simp only [iterproblems, hs, hhc]
      rfl
    | ok cs2 =>
      simp only [iterproblems, hs, hhc]
      rw [List.countP_append]
      have h0 : (processRows (headerCheck (some eh) t.header).1 cs2 1 t.rows).countP
          (fun p => p.row == 0) = 0 := by
        rw [List.countP_eq_zero]
        intro p hp
        have := processRows_row_ge _ _ _ _ p hp
        simp
        omega
      rw [h0]
      rfl

/-- C2 witness: the theorem at a concrete table with actual header
(a, b) and supplied expected header (a, c). -/
theorem claim_C2_witness :
    (∀ eh2 : List Value, effectiveFlds smallTable (some eh2) = eh2.map text_type)
    ∧ (iterproblems smallTable [] (some [Value.str "a", Value.str "c"])).1.head? =
        some ⟨some "__header__", 0, Option.none, Option.none, HeaderMismatch⟩
    ∧ (iterproblems smallTable [] (some [Value.str "a", Value.str "c"])).1.countP
        (fun p => p.row == 0) = 1 :=
  claim_C2_header_mismatch smallTable [] [Value.str "a", Value.str "c"] (by decide)

/-- C6: for every pass that compiles, the emitted problems are
pairwise ordered by ascending row index, every problem at row index 0
is the header problem, and the problems of data row i, recovered by
filtering on its 1-based row index, are exactly the row-length
problem, if any, followed by the problems of the compiled constraints
in declaration order. -/
theorem claim_C6_ordering (t : Table) (cs cs2 : List Constraint) (eh : Option (List Value))
    (i : Nat) (r : List Value)
    (hok : setupGetters (effectiveFlds t eh) cs = .ok cs2)
    (hr : t.rows[i]? = some r) :
    ((iterproblems t cs eh).1.Pairwise fun p q => p.row ≤ q.row)
    ∧ (∀ p ∈ (iterproblems t cs eh).1, p.row = 0 →
        p = ⟨some "__header__", 0, Option.none, Option.none, HeaderMismatch⟩)
    ∧ (iterproblems t cs eh).1.filter (fun p => p.row == i + 1) =
        (if r.length = (effectiveFlds t eh).length then [] else
          [⟨some "__len__", i + 1, Option.none, some (Value.int (r.length : Int)),
            RowLengthMismatch⟩])
        ++ cs2.flatMap (evalConstraint (effectiveFlds t eh) (i + 1) r) := by
  simp only [effectiveFlds] at hok ⊢
  refine ⟨iterproblems_pairwise t cs eh, ?_, ?_⟩
  · intro p hp h0
    simp only [iterproblems, hok] at hp
    rcases List.mem_append.1 hp with h | h
    · rw [headerCheck_mem eh t.header p h]
      rfl
    · have := processRows_row_ge _ _ _ _ p h
      omega
  · simp only [iterproblems, hok]
    rw [List.filter_append]
    rw [filter_row_none fun p hp h0 => by
      rw [headerCheck_mem eh t.header p hp] at h0
      simp at h0]
    rw [List.nil_append]
    have hidx : t.rows[i + 1 - 1]? = some r := by simpa using hr
    rw [processRows_filter _ _ t.rows 1 (i + 1) r (by omega) hidx]
    rfl

/-- C6 witness: the theorem at the end-to-end example, recovering the
problems of data row 3 as the row-length problem followed by the
problems of the single compiled constraint, which are none. -/
theorem claim_C6_witness :
    (iterproblems exampleTable [fooPosConstraint]
        (some [Value.str "foo", Value.str "bar"])).1.filter (fun p => p.row == 3) =
      [⟨some "__len__", 3, Option.none, some (Value.int 3), "AssertionError"⟩] :=
  (claim_C6_ordering exampleTable [fooPosConstraint]
    [{ name := some "foo_pos", field := some (.one "foo"), optional := Option.none,
       getter := some (itemgetter [0]), test := Option.none,
       assertion := some fooPosAssertion }]
    (some [Value.str "foo", Value.str "bar"]) 2
    [Value.int 2, Value.str "c", Value.str "extra"] rfl rfl).2.2

/-- C8: a validation pass never mutates the caller constraint cells:
after copying and getter attachment, every caller address holds the
same constraint dict it held before. -/
theorem claim_C8_no_mutation (flds : List String) (heap : List Constraint)
    (addrs : List Nat) (hv : ∀ a2 ∈ addrs, a2 < heap.length) (a : Nat) (ha : a ∈ addrs) :
    ((setupGettersHeap flds heap addrs).1)[a]? = heap[a]? := by
  simp only [setupGettersHeap, copyConstraints]
  have ha2 : a < heap.length := hv a ha
  rw [attachGetters_preserve flds (List.range' heap.length addrs.length) _ heap.length
    (fun b hb => (List.mem_range'_1.1 hb).1) a ha2]
  rw [List.getElem?_append]
  rw [if_pos ha2]

/-- C8 witness: the theorem at a concrete one-cell heap. -/
theorem claim_C8_witness :
    ((setupGettersHeap ["foo", "bar"] [fooPosConstraint] [0]).1)[0]? =
      [fooPosConstraint][0]? :=
  claim_C8_no_mutation ["foo", "bar"] [fooPosConstraint] [0] (by decide) 0 (by decide)

/-- C10: for every constraint with a field but no optional key whose
field value is not a member of the effective field list, iterating
the problems view aborts with KeyError during getter setup, after the
header problems and before any row-level problem; and a field that is
a collection of names is never a member of the field list, whatever
names it holds. -/
theorem claim_C10_absent_optional_key (t : Table) (pre pre2 post : List Constraint)
    (c : Constraint) (f : FieldSpec) (eh : Option (List Value))
    (hg : c.getter = Option.none) (hf : c.field = some f)
    (hmem : fieldInFlds f (effectiveFlds t eh) = false) (hopt : c.optional = Option.none)
    (hpre : setupGetters (effectiveFlds t eh) pre = .ok pre2) :
    iterproblems t (pre ++ c :: post) eh = ((headerCheck eh t.header).2, some "KeyError")
    ∧ ∀ ns : List String, fieldInFlds (.many ns) (effectiveFlds t eh) = false := by
  constructor
  · have hc : compileConstraint (effectiveFlds t eh) c = .error "KeyError" :=
      compileConstraint_keyError _ c f hg hf hmem hopt
    have hcons : setupGetters (effectiveFlds t eh) (c :: post) = .error "KeyError" :=
      setupGetters_cons_error _ c post _ hc
    have hs : setupGetters (effectiveFlds t eh) (pre ++ c :: post) = .error "KeyError" :=
      setupGetters_append_error _ pre (c :: post) pre2 _ hpre hcons
    simp only [effectiveFlds] at hs
    simp only [iterproblems, hs]
  · intro ns
    rfl

/-- C7: field resolution and getter construction.  First, a
constraint on a collection of several names, all resolvable, compiles
to the itemgetter at the resolved positions, and that getter applied
to a row yields the ordered tuple of the row values at those
positions, in the order the names were given.  Second, a constraint
on a single resolvable name compiles to the scalar itemgetter, which
yields the row value at the resolved position.  Third, a non-optional
constraint on a name absent from the effective field list fails
during getter setup with the field lookup error, so the iteration
aborts before any row problem, right after the header problems. -/
theorem claim_C7_field_resolution :
    (∀ (flds : List String) (c : Constraint) (ns : List String) (idxs : List Nat)
        (row : List Value),
      c.getter = Option.none → c.field = some (.many ns) → c.optional = some false →
      2 ≤ ns.length → asindicesMany flds ns = .ok idxs →
      (∀ j ∈ idxs, j < row.length) →
      compileConstraint flds c = .ok { c with getter := some (itemgetter idxs) }
      ∧ itemgetter idxs (Value.record row flds) =
          .ok (.tuple (idxs.map fun j => row.getD j Value.none)))
    ∧ (∀ (flds : List String) (c : Constraint) (s : String) (i : Nat) (row : List Value),
      c.getter = Option.none → c.field = some (.one s) →
      fieldIndex flds s = .ok i → i < row.length →
      compileConstraint flds c = .ok { c with getter := some (itemgetter [i]) }
      ∧ itemgetter [i] (Value.record row flds) = .ok (row.getD i Value.none))
    ∧ (∀ (t : Table) (c : Constraint) (s : String) (eh : Option (List Value)),
      c.getter = Option.none → c.field = some (.one s) → c.optional = some false →
      (effectiveFlds t eh).contains s = false →
      compileConstraint (effectiveFlds t eh) c = .error "FieldSelectionError"
      ∧ iterproblems t [c] eh =
          ((headerCheck eh t.header).2, some "FieldSelectionError")) := by
  refine ⟨?_, ?_, ?_⟩
  · intro flds c ns idxs row hg hf hopt hlen hidx hrange
    have hmem : fieldInFlds (.many ns) flds = false := rfl
    have hcomp := compileConstraint_required flds c (.many ns) hg hf hmem hopt
    have hlen2 : 2 ≤ idxs.length := by
      rw [asindicesMany_length flds ns idxs hidx]
      exact hlen
    refine ⟨?_, ?_⟩
    · rw [hcomp]
      refine compileAttach_many flds c ns idxs hidx ?_
      cases idxs with
      | nil => simp at hlen2
      | cons j js => rfl
    · rcases idxs with _ | ⟨j1, _ | ⟨j2, rest⟩⟩
      · simp at hlen2
      · simp at hlen2
      · simp only [itemgetter]
        rw [getItems_record row flds _ hrange]
  · intro flds c s i row hg hf hfi hlt
    have hmem : fieldInFlds (.one s) flds = true := by
      simp only [fieldInFlds]
      exact contains_of_fieldIndex_ok flds s i hfi
    refine ⟨?_, ?_⟩
    · rw [compileConstraint_present flds c (.one s) hg hf hmem]
      exact compileAttach_one flds c s i hfi
    · simp only [itemgetter]
      exact getItem_record row flds i hlt
  · intro t c s eh hg hf hopt hcon
    have hmem : fieldInFlds (.one s) (effectiveFlds t eh) = false := by
      simp only [fieldInFlds]
      exact hcon
    have hfi : fieldIndex (effectiveFlds t eh) s = .error "FieldSelectionError" := by
      unfold fieldIndex
      rw [findIdx?_none_of_contains_false _ _ hcon]
    have hcomp : compileConstraint (effectiveFlds t eh) c = .error "FieldSelectionError" := by
      rw [compileConstraint_required _ c (.one s) hg hf hmem hopt]
      exact compileAttach_one_err _ c s hfi
    refine ⟨hcomp, ?_⟩
    have hs : setupGetters (effectiveFlds t eh) [c] = .error "FieldSelectionError" :=
      setupGetters_cons_error _ c [] _ hcomp
    simp only [effectiveFlds] at hs
    simp only [iterproblems, hs]

/-- C7 witness: the three parts of the theorem at concrete inputs: a
pair constraint on (b, a) compiles to the tuple getter and extracts
the values in the given order; a single-name constraint compiles to
the scalar getter; and a required constraint on the absent name z
aborts the pass with the field lookup error before any row problem. -/
theorem claim_C7_witness :
    (compileConstraint ["a", "b"] pairConstraint =
        .ok { pairConstraint with getter := some (itemgetter [1, 0]) }
      ∧ itemgetter [1, 0] (Value.record [Value.int 1, Value.int 2] ["a", "b"]) =
          .ok (.tuple [Value.int 2, Value.int 1]))
    ∧ (compileConstraint ["a", "b"] aFieldConstraint =
        .ok { aFieldConstraint with getter := some (itemgetter [0]) }
      ∧ itemgetter [0] (Value.record [Value.int 5] ["a", "b"]) = .ok (Value.int 5))
    ∧ (compileConstraint (effectiveFlds smallTable Option.none) missingRequiredConstraint =
        .error "FieldSelectionError"
      ∧ iterproblems smallTable [missingRequiredConstraint] Option.none =
          ([], some "FieldSelectionError")) :=
  ⟨claim_C7_field_resolution.1 ["a", "b"] pairConstraint ["b", "a"] [1, 0]
      [Value.int 1, Value.int 2] rfl rfl rfl (by decide) rfl (by decide),
   claim_C7_field_resolution.2.1 ["a", "b"] aFieldConstraint "a" 0 [Value.int 5]
      rfl rfl rfl (by decide),
   claim_C7_field_resolution.2.2 smallTable missingRequiredConstraint "z" Option.none
      rfl rfl rfl rfl⟩

/-- C10 witness: the theorem at a concrete table and a constraint on
the field collection (a, b), both names present, with no optional
key. -/
theorem claim_C10_witness :
    iterproblems smallTable [noOptionalConstraint] Option.none = ([], some "KeyError") :=
  (claim_C10_absent_optional_key smallTable [] [] [] noOptionalConstraint
    (.many ["a", "b"]) Option.none rfl rfl rfl rfl rfl).1

end Petl
